import Mathlib

/-!
Verification of the FRC Stratometer match-simulation core
(`FRCstratometer/__init__.py`).

Shallow embedding conventions:
  * Python floats (times, points) are embedded as elements of an arbitrary
    linear ordered commutative ring `K`, so every general theorem below
    holds in particular over `ℝ` and `ℚ`; concrete runs appearing in
    witnesses are evaluated at `K := ℤ` (or `K := ℚ` for the probability
    primitive), where the kernel can compute.
  * The status dictionary becomes the structure `Status`.  The keys
    `autontime`, `gametime`, `endgametime` are `Option K` because
    `reset_field` recreates the dictionary without those keys while
    `__init__` includes them.
  * Game-specific dictionary entries (the open extension point mutated by
    actions, e.g. coral counts) are collected in the type parameter `ε`
    (field `extra`); robot-private state captured by strategy closures is
    the type parameter `ρ`, threaded explicitly through every call.
  * A strategy is a function of the status (and robot state) returning an
    action; an action consumes the status and robot state and returns
    `(dtime, dpoints, new extra, new robot state)` — the explicit
    state-passing translation of Python mutation.
  * The two unbounded `while` loops of `run_game` are modelled with a fuel
    parameter; running out of fuel yields `none`, and `some` results
    correspond exactly to terminating (completed) runs.  The loop guard
    itself consumes no fuel, so a `some` result never depends on having
    fuel left over after the last iteration.
  * `numpy.random.rand()` inside `roll_for_success` is modelled by an
    explicit oracle argument `u` with `0 ≤ u < 1`.
-/

set_option maxRecDepth 10000
set_option linter.unusedSectionVars false

variable {K : Type} [LinearOrderedCommRing K] [Inhabited K] {ρ ε : Type}

/-- The game status dictionary created in `FrcMatch.__init__` (and
recreated, with fewer keys, in `FrcMatch.reset_field`). -/
structure Status (K : Type) (ε : Type) where
  time : K
  auton : Bool
  endgame : Bool
  autontime : Option K
  gametime : Option K
  endgametime : Option K
  gameover : Bool
  extra : ε

/-- An action callable: given the status and the robot-private state it
returns `(dtime, dpoints, updated extra fields, updated robot state)`. -/
abbrev FrcAction (K ρ ε : Type) : Type := Status K ε → ρ → K × K × ε × ρ

/-- A strategy function: picks an action from the current status (and any
robot-private state its closure holds). -/
abbrev FrcStrat (K ρ ε : Type) : Type := Status K ε → ρ → FrcAction K ρ ε

/-- The `FrcMatch` object and its attributes.  The attribute `game` only
exists after `reset_field` has run (the source assigns `self.game` there),
hence `Option`. -/
structure FrcMatch (K ρ ε : Type) where
  gamefunc : Status K ε → ε
  strat : FrcStrat K ρ ε
  gametime : K
  autontime : K
  endgametime : K
  time : List K
  score : List K
  points_auton : K
  points_tele : K
  points_end : K
  status : Status K ε
  game : Option (List K)

/-- `roll_for_success(rate)`: the uniform draw `rand()` is the oracle
argument `u`; the source returns `rate > rand()`. -/
def roll_for_success (rate : K) (u : K) : Bool :=
  decide (rate > u)

/-- `FrcMatch.__init__`.  The default extra value (`default : ε`) stands
for the dictionary before the game initializer `gamefunc` populates it. -/
def FrcMatch.init [Inhabited ε] (stratfunc : FrcStrat K ρ ε)
    (gametime autontime endgametime : K) (gamefunc : Status K ε → ε) :
    FrcMatch K ρ ε :=
  let status0 : Status K ε :=
    { time := 0, auton := true, endgame := false,
      autontime := some autontime, gametime := some gametime,
      endgametime := some endgametime, gameover := false, extra := default }
  { gamefunc := gamefunc, strat := stratfunc,
    gametime := gametime, autontime := autontime, endgametime := endgametime,
    time := [0], score := [0],
    points_auton := 0, points_tele := 0, points_end := 0,
    status := { status0 with extra := gamefunc status0 },
    game := none }

/-- `FrcMatch.reset_field`.  Faithful to the source: the assignment is
`self.game, self.score = [0], [0]`, so the `time` list is left untouched,
and the recreated status dictionary omits the `autontime` / `gametime` /
`endgametime` keys. -/
def FrcMatch.reset_field [Inhabited ε] (m : FrcMatch K ρ ε) : FrcMatch K ρ ε :=
  let status0 : Status K ε :=
    { time := 0, auton := true, endgame := false,
      autontime := none, gametime := none, endgametime := none,
      gameover := false, extra := default }
  { m with game := some [0], score := [0],
           points_auton := 0, points_tele := 0, points_end := 0,
           status := { status0 with extra := m.gamefunc status0 } }

/-- One phase loop of `run_game` (the AUTON and TELEOP `while` loops of the
source are textually identical up to the boundary `B`, which is
`self.autontime` for AUTON and `self.gametime` for TELEOP). -/
def phaseLoop (B : K) : Nat → K → FrcMatch K ρ ε → ρ → Option (K × FrcMatch K ρ ε × ρ)
  | 0, tnow, m, r =>
    if tnow < B then none else some (tnow, m, r)
  | fuel + 1, tnow, m, r =>
    if tnow < B then
      -- Pick action based on game status:
      let action := m.strat m.status r
      -- Perform action and get change in time, points:
      let res := action m.status r
      let dtime := res.1
      let dpoints := res.2.1
      let m1 : FrcMatch K ρ ε := { m with status := { m.status with extra := res.2.2.1 } }
      let r1 := res.2.2.2
      -- Update time:
      let tnow1 := tnow + dtime
      -- Score points if we did it before the end of the period:
      let m2 : FrcMatch K ρ ε :=
        if tnow1 < B then
          { m1 with score := m1.score ++ [m1.score.getLast! + dpoints],
                    time := m1.time ++ [m1.time.getLast! + dtime] }
        else m1
      phaseLoop B fuel tnow1 m2 r1
    else some (tnow, m, r)

/-- `FrcMatch.run_game`.  The local clock `tnow` starts at `0`, is
hard-reset to `autontime` between the phases, and is discarded at the end;
`some` means both `while` loops terminated within the given fuel. -/
def run_game (fuel : Nat) (m : FrcMatch K ρ ε) (r : ρ) :
    Option (FrcMatch K ρ ε × ρ) :=
  match phaseLoop m.autontime fuel 0 m r with
  | none => none
  | some (_, mA, rA) =>
    -- Stash auton points:
    let mA : FrcMatch K ρ ε := { mA with points_auton := mA.score.getLast! }
    -- After auton, hard-set game clock, update status:
    let mA : FrcMatch K ρ ε := { mA with status := { mA.status with auton := false } }
    match phaseLoop mA.gametime fuel mA.autontime mA rA with
    | none => none
    | some (_, mT, rT) =>
      -- Stash teleop points:
      let mT : FrcMatch K ρ ε := { mT with points_tele := mT.score.getLast! - mT.points_auton }
      -- End game: duplicate the final sample, set gameover:
      let mT : FrcMatch K ρ ε :=
        { mT with score := mT.score ++ [mT.score.getLast!],
                  time := mT.time ++ [mT.time.getLast!] }
      let mT : FrcMatch K ρ ε := { mT with status := { mT.status with gameover := true } }
      some (mT, rT)

/-- Errors raised by the reporting layer. -/
inductive SimError
  | invalidState
deriving DecidableEq

/-- `FrcMatch.viz_game`: raises when the simulation is not complete
(`raise ValueError('Simulation not complete.')` in the source); the
matplotlib plotting itself is an external collaborator, reduced here to
returning the data it would plot (the two series and the phase totals). -/
def viz_game (m : FrcMatch K ρ ε) : Except SimError (List K × List K × K × K × K) :=
  if m.status.gameover = false then
    Except.error SimError.invalidState
  else
    Except.ok (m.time, m.score, m.points_auton, m.points_tele, m.points_end)

/-- Instrumented copy of `phaseLoop` that additionally reports the list of
`(dtime, dpoints)` results of the recorded (appended) actions and the list
of the `dtime` values of all actions, recorded or discarded. -/
def phaseLoopT (B : K) : Nat → K → FrcMatch K ρ ε → ρ →
    Option (K × FrcMatch K ρ ε × ρ × List (K × K) × List K)
  | 0, tnow, m, r =>
    if tnow < B then none else some (tnow, m, r, [], [])
  | fuel + 1, tnow, m, r =>
    if tnow < B then
      let action := m.strat m.status r
      let res := action m.status r
      let dtime := res.1
      let dpoints := res.2.1
      let m1 : FrcMatch K ρ ε := { m with status := { m.status with extra := res.2.2.1 } }
      let r1 := res.2.2.2
      let tnow1 := tnow + dtime
      let m2 : FrcMatch K ρ ε :=
        if tnow1 < B then
          { m1 with score := m1.score ++ [m1.score.getLast! + dpoints],
                    time := m1.time ++ [m1.time.getLast! + dtime] }
        else m1
      match phaseLoopT B fuel tnow1 m2 r1 with
      | none => none
      | some (tf, mf, rf, recd, alldts) =>
        some (tf, mf, rf, (if tnow1 < B then [(dtime, dpoints)] else []) ++ recd,
              dtime :: alldts)
    else some (tnow, m, r, [], [])

/-- Successive differences of a sample series. -/
def diffs : List K → List K
  | [] => []
  | [_] => []
  | a :: b :: t => (b - a) :: diffs (b :: t)

/-- A strategy whose single action lands exactly on the AUTON boundary of
the standard match (dtime 15 from time 0). -/
def stratX : FrcStrat Int Unit Unit := fun _ _ => fun _ _ => (15, 7, (), ())

/-- Standard match (150/15/130) driven by `stratX`. -/
def mX : FrcMatch Int Unit Unit := FrcMatch.init stratX 150 15 130 (fun st => st.extra)

/-- A deterministic strategy with constant action `(dtime 2, dpoints 1)`. -/
def stratR : FrcStrat Int Unit Unit := fun _ _ => fun _ _ => (2, 1, (), ())

/-- A small match (gametime 9, autontime 3, endgametime 8) driven by
`stratR`. -/
def mR : FrcMatch Int Unit Unit := FrcMatch.init stratR 9 3 8 (fun st => st.extra)

/-- The state of `mR` after a completed `run_game` (checked by `rfl` in the
witnesses below). -/
def mRdone : FrcMatch Int Unit Unit :=
  { gamefunc := fun st => st.extra, strat := stratR,
    gametime := 9, autontime := 3, endgametime := 8,
    time := [0, 2, 4, 6, 6], score := [0, 1, 2, 3, 3],
    points_auton := 1, points_tele := 2, points_end := 0,
    status := { time := 0, auton := false, endgame := false,
                autontime := some 3, gametime := some 9, endgametime := some 8,
                gameover := true, extra := () },
    game := none }

/-- The state of `mR` after one teleop-shaped phase loop from time 3 with
boundary 9 (two recorded actions). -/
def mRT : FrcMatch Int Unit Unit := { mR with time := [0, 2, 4], score := [0, 1, 2] }

/-- A strategy alternating `(dtime 3, dpoints 0)` and
`(dtime -1, dpoints -1)` using a boolean robot state. -/
def stratAlt : FrcStrat Int Bool Unit := fun _ b => fun _ _ =>
  if b then (3, 0, (), false) else (-1, -1, (), true)

/-- A small match (gametime 6, autontime 3) driven by `stratAlt`. -/
def mAlt : FrcMatch Int Bool Unit := FrcMatch.init stratAlt 6 3 5 (fun st => st.extra)

/-- The scenario strategy: `(dtime 10, dpoints 6)` during AUTON and
`(dtime 1, dpoints 0)` during TELEOP. -/
def stratC3 : FrcStrat Int Unit Unit := fun st _ => fun _ _ =>
  if st.auton then (10, 6, (), ()) else (1, 0, (), ())

/-- The standard match (150/15/130) driven by `stratC3`. -/
def mC3 : FrcMatch Int Unit Unit := FrcMatch.init stratC3 150 15 130 (fun st => st.extra)

/-- The state of `mC3` after its AUTON loop (one recorded sample). -/
def mC3A : FrcMatch Int Unit Unit := { mC3 with time := [0, 10], score := [0, 6] }

/-- The state of `mC3` entering the TELEOP loop (auton points stashed,
`auton` flag cleared). -/
def mC3mid : FrcMatch Int Unit Unit :=
  { mC3A with points_auton := mC3A.score.getLast!,
              status := { mC3A.status with auton := false } }

/-- Appending a single element makes it the last one. -/
lemma concat_getLast! : ∀ (l : List K) (x : K), (l ++ [x]).getLast! = x
  | [], x => rfl
  | a :: t, x => by
    rw [List.cons_append, List.getLast!_cons]
    have := concat_getLast! t x
    cases t with
    | nil => rfl
    | cons b t' =>
      rw [List.cons_append]
      rw [List.getLastD_cons]
      rw [← List.getLast!_cons]
      exact this

/-- Appending the current last element plus a non-negative increment keeps
a series non-decreasing. -/
lemma chain'_le_concat (l : List K) (d : K) (hd : 0 ≤ d)
    (h : List.Chain' (· ≤ ·) l) : List.Chain' (· ≤ ·) (l ++ [l.getLast! + d]) := by
  rcases List.eq_nil_or_concat l with rfl | ⟨l', a, rfl⟩
  · simp
  · rw [List.concat_eq_append] at *
    rw [List.chain'_append]
    refine ⟨h, List.chain'_singleton _, ?_⟩
    intro x hx y hy
    simp at hy
    rw [List.getLast?_concat] at hx
    rw [concat_getLast!] at hy
    simp at hx
    subst hx
    subst hy
    linarith

/-- Frame property of the phase loop: only `time`, `score` and the extra
status fields can change across a completed loop. -/
lemma phaseLoop_frame (B : K) (fuel : Nat) :
    ∀ (tnow : K) (m : FrcMatch K ρ ε) (r : ρ) (tf : K) (mf : FrcMatch K ρ ε) (rf : ρ),
      phaseLoop B fuel tnow m r = some (tf, mf, rf) →
      mf = { m with time := mf.time, score := mf.score,
                    status := { m.status with extra := mf.status.extra } } := by
  induction fuel with
  | zero =>
    intro tnow m r tf mf rf h
    simp only [phaseLoop] at h
    split at h
    · exact absurd h (by simp)
    · simp only [Option.some.injEq, Prod.mk.injEq] at h
      obtain ⟨-, h2, -⟩ := h
      subst h2
      rfl
  | succ fuel ih =>
    intro tnow m r tf mf rf h
    simp only [phaseLoop] at h
    split at h
    · have := ih _ _ _ _ _ _ h
      split at this
      · exact this
      · exact this
    · simp only [Option.some.injEq, Prod.mk.injEq] at h
      obtain ⟨-, h2, -⟩ := h
      subst h2
      rfl

/-- A phase loop whose clock already reached the boundary exits at once,
whatever fuel is left. -/
lemma phaseLoop_exit (B : K) (fuel : Nat) (tnow : K) (m : FrcMatch K ρ ε) (r : ρ)
    (h : ¬ tnow < B) : phaseLoop B fuel tnow m r = some (tnow, m, r) := by
  cases fuel <;> simp only [phaseLoop, if_neg h]

/-- Completed phase loops preserve monotone series of equal lengths when
every action result is non-negative in both components. -/
lemma phaseLoop_mono (B : K) (fuel : Nat) :
    ∀ (tnow : K) (m : FrcMatch K ρ ε) (r : ρ) (tf : K) (mf : FrcMatch K ρ ε) (rf : ρ),
      phaseLoop B fuel tnow m r = some (tf, mf, rf) →
      (∀ (s : Status K ε) (rb : ρ),
        0 ≤ (m.strat s rb s rb).1 ∧ 0 ≤ (m.strat s rb s rb).2.1) →
      List.Chain' (· ≤ ·) m.time → List.Chain' (· ≤ ·) m.score →
      m.time.length = m.score.length →
      List.Chain' (· ≤ ·) mf.time ∧ List.Chain' (· ≤ ·) mf.score ∧
        mf.time.length = mf.score.length := by
  induction fuel with
  | zero =>
    intro tnow m r tf mf rf h hstrat ht hs hlen
    simp only [phaseLoop] at h
    split at h
    · exact absurd h (by simp)
    · simp only [Option.some.injEq, Prod.mk.injEq] at h
      obtain ⟨-, h2, -⟩ := h
      subst h2
      exact ⟨ht, hs, hlen⟩
  | succ fuel ih =>
    intro tnow m r tf mf rf h hstrat ht hs hlen
    simp only [phaseLoop] at h
    split at h
    · split at h
      · refine ih _ _ _ _ _ _ h ?_ ?_ ?_ ?_
        · exact hstrat
        · exact chain'_le_concat _ _ (hstrat m.status r).1 ht
        · exact chain'_le_concat _ _ (hstrat m.status r).2 hs
        · simp [hlen]
      · refine ih _ _ _ _ _ _ h ?_ ?_ ?_ ?_
        · exact hstrat
        · exact ht
        · exact hs
        · exact hlen
    · simp only [Option.some.injEq, Prod.mk.injEq] at h
      obtain ⟨-, h2, -⟩ := h
      subst h2
      exact ⟨ht, hs, hlen⟩

/-- Completed phase loops preserve equality of the two series' lengths,
with no sign assumptions: each iteration appends to both lists or to
neither. -/
lemma phaseLoop_len (B : K) (fuel : Nat) :
    ∀ (tnow : K) (m : FrcMatch K ρ ε) (r : ρ) (tf : K) (mf : FrcMatch K ρ ε) (rf : ρ),
      phaseLoop B fuel tnow m r = some (tf, mf, rf) →
      m.time.length = m.score.length →
      mf.time.length = mf.score.length := by
  induction fuel with
  | zero =>
    intro tnow m r tf mf rf h hlen
    simp only [phaseLoop] at h
    split at h
    · exact absurd h (by simp)
    · simp only [Option.some.injEq, Prod.mk.injEq] at h
      obtain ⟨-, h2, -⟩ := h
      subst h2
      exact hlen
  | succ fuel ih =>
    intro tnow m r tf mf rf h hlen
    simp only [phaseLoop] at h
    split at h
    · split at h
      · refine ih _ _ _ _ _ _ h ?_
        simp [hlen]
      · refine ih _ _ _ _ _ _ h ?_
        exact hlen
    · simp only [Option.some.injEq, Prod.mk.injEq] at h
      obtain ⟨-, h2, -⟩ := h
      subst h2
      exact hlen

/-- Appending an element to a non-empty series appends its difference from
the previous last element to the difference series. -/
lemma diffs_concat : ∀ (l : List K) (x : K), l ≠ [] →
    diffs (l ++ [x]) = diffs l ++ [x - l.getLast!]
  | [], _, h => absurd rfl h
  | [a], x, _ => by
    show diffs [a, x] = [x - a]
    rfl
  | a :: b :: t, x, _ => by
    have ih := diffs_concat (b :: t) x (by simp)
    rw [List.cons_append] at ih
    show (b - a) :: diffs (b :: (t ++ [x])) =
      ((b - a) :: diffs (b :: t)) ++ [x - (a :: b :: t).getLast!]
    rw [ih]
    rfl

/-- Appending last-plus-`d` appends exactly `d` to the difference series. -/
lemma diffs_concat_add (l : List K) (d : K) (h : l ≠ []) :
    diffs (l ++ [l.getLast! + d]) = diffs l ++ [d] := by
  rw [diffs_concat l _ h, add_sub_cancel_left]

/-- The instrumented loop computes exactly what `phaseLoop` computes, plus
its traces. -/
lemma phaseLoopT_sound (B : K) (fuel : Nat) :
    ∀ (tnow : K) (m : FrcMatch K ρ ε) (r : ρ),
      phaseLoop B fuel tnow m r =
        (phaseLoopT B fuel tnow m r).map (fun x => (x.1, x.2.1, x.2.2.1)) := by
  induction fuel with
  | zero =>
    intro tnow m r
    simp only [phaseLoop, phaseLoopT]
    split <;> rfl
  | succ fuel ih =>
    intro tnow m r
    simp only [phaseLoop, phaseLoopT]
    split
    · rw [ih]
      cases phaseLoopT B fuel _ _ _ with
      | none => rfl
      | some x => rfl
    · rfl

/-- Across a completed phase loop, the difference series of the recorded
times extends by exactly the `dtime`s of the recorded actions, while the
returned clock advances by the sum of all `dtime`s. -/
lemma phaseLoopT_spec (B : K) (fuel : Nat) :
    ∀ (tnow : K) (m : FrcMatch K ρ ε) (r : ρ) (tf : K) (mf : FrcMatch K ρ ε)
      (rf : ρ) (recd : List (K × K)) (alldts : List K),
      phaseLoopT B fuel tnow m r = some (tf, mf, rf, recd, alldts) →
      m.time ≠ [] →
      diffs mf.time = diffs m.time ++ recd.map Prod.fst ∧
      tf = tnow + alldts.sum ∧ mf.time ≠ [] := by
  induction fuel with
  | zero =>
    intro tnow m r tf mf rf recd alldts h hne
    simp only [phaseLoopT] at h
    split at h
    · exact absurd h (by simp)
    · simp only [Option.some.injEq, Prod.mk.injEq] at h
      obtain ⟨h1, h2, -, h4, h5⟩ := h
      subst h1
      subst h2
      subst h4
      subst h5
      exact ⟨by simp, by simp, hne⟩
  | succ fuel ih =>
    intro tnow m r tf mf rf recd alldts h hne
    simp only [phaseLoopT] at h
    split at h
    · split at h
      · exact absurd h (by simp)
      · rename_i tf2 mf2 rf2 recd2 alldts2 heq
        simp only [Option.some.injEq, Prod.mk.injEq] at h
        obtain ⟨h1, h2, -, h4, h5⟩ := h
        subst h1
        subst h2
        subst h4
        subst h5
        by_cases hc : tnow + (m.strat m.status r m.status r).1 < B
        · rw [if_pos hc] at heq
          have spec := ih _ _ _ _ _ _ _ _ heq (by simp)
          rw [if_pos hc]
          refine ⟨?_, ?_, spec.2.2⟩
          · rw [spec.1]
            have hd := diffs_concat_add m.time (m.strat m.status r m.status r).1 hne
            rw [hd]
            simp
          · rw [spec.2.1, List.sum_cons]
            ring
        · rw [if_neg hc] at heq
          have spec := ih _ _ _ _ _ _ _ _ heq hne
          rw [if_neg hc]
          refine ⟨?_, ?_, spec.2.2⟩
          · rw [spec.1]
            simp
          · rw [spec.2.1, List.sum_cons]
            ring
    · simp only [Option.some.injEq, Prod.mk.injEq] at h
      obtain ⟨h1, h2, -, h4, h5⟩ := h
      subst h1
      subst h2
      subst h4
      subst h5
      exact ⟨by simp, by simp, hne⟩

/-- A completed `run_game` is the composition of its two phase loops plus
the fixed epilogue. -/
lemma run_game_eq (fuel : Nat) (m : FrcMatch K ρ ε) (r : ρ) (t1 : K)
    (m1 : FrcMatch K ρ ε) (r1 : ρ) (t2 : K) (m2 : FrcMatch K ρ ε) (r2 : ρ)
    (h1 : phaseLoop m.autontime fuel 0 m r = some (t1, m1, r1))
    (h2 : phaseLoop m1.gametime fuel m1.autontime
        { m1 with points_auton := m1.score.getLast!,
                  status := { m1.status with auton := false } } r1 = some (t2, m2, r2)) :
    run_game fuel m r =
      some ({ m2 with
        points_tele := m2.score.getLast! - m2.points_auton,
        score := m2.score ++ [m2.score.getLast!],
        time := m2.time ++ [m2.time.getLast!],
        status := { m2.status with gameover := true } }, r2) := by
  simp only [run_game]
  rw [h1]
  dsimp only
  rw [h2]

/-- Closed form of the TELEOP loop of `mC3`: starting `n` seconds before
the boundary 150 with the constant `(dtime 1, dpoints 0)` action, the loop
ends exactly at 150 after recording `n - 1` samples and leaving the last
score unchanged. -/
lemma stratC3_teleop : ∀ (n : Nat), ∀ (fuel : Nat), n ≤ fuel →
    ∀ (m : FrcMatch Int Unit Unit),
      m.strat = stratC3 → m.status.auton = false → m.time ≠ [] → m.score ≠ [] →
      ∃ mf : FrcMatch Int Unit Unit,
        phaseLoop 150 fuel ((150 : Int) - (n : Int)) m () = some (150, mf, ()) ∧
        mf.time.length = m.time.length + (n - 1) ∧
        mf.score.length = m.score.length + (n - 1) ∧
        mf.score.getLast! = m.score.getLast! := by
  intro n
  induction n with
  | zero =>
    intro fuel hfuel m hstrat hauton htne hsne
    refine ⟨m, ?_, by simp, by simp, rfl⟩
    have h150 : ((150 : Int) - ((0 : Nat) : Int)) = 150 := by norm_num
    rw [h150]
    exact phaseLoop_exit 150 fuel 150 m () (lt_irrefl 150)
  | succ n ihn =>
    intro fuel hfuel m hstrat hauton htne hsne
    cases fuel with
    | zero => omega
    | succ f =>
      have hn : n ≤ f := by omega
      have hnauton : ¬ (m.status.auton = true) := by simp [hauton]
      have hlt : ((150 : Int) - ((n + 1 : Nat) : Int)) < 150 := by push_cast; linarith
      have harith : ((150 : Int) - ((n + 1 : Nat) : Int)) + 1 = 150 - (n : Int) := by
        push_cast; ring
      cases n with
      | zero =>
        refine ⟨{ m with status := { m.status with extra := () } }, ?_, by simp, by simp, rfl⟩
        simp only [phaseLoop, if_pos hlt, hstrat, stratC3]
        rw [if_neg hnauton]
        dsimp only
        rw [harith]
        rw [if_neg (by norm_num : ¬ ((150 : Int) - ((0 : Nat) : Int) < 150))]
        have h150 : ((150 : Int) - ((0 : Nat) : Int)) = 150 := by norm_num
        rw [h150]
        exact phaseLoop_exit 150 f 150 _ () (lt_irrefl 150)
      | succ k =>
        have hlt2 : ((150 : Int) - ((k + 1 : Nat) : Int)) < 150 := by push_cast; linarith
        obtain ⟨mf, hrec, hl1, hl2, hlast⟩ :=
          ihn f hn
            { m with status := { m.status with extra := () },
                     score := m.score ++ [m.score.getLast! + 0],
                     time := m.time ++ [m.time.getLast! + 1] }
            hstrat hauton (by simp) (by simp)
        refine ⟨mf, ?_, ?_, ?_, ?_⟩
        · calc phaseLoop 150 (f + 1) ((150 : Int) - ((k + 1 + 1 : Nat) : Int)) m ()
              = phaseLoop 150 f ((150 : Int) - ((k + 1 : Nat) : Int))
                  { m with status := { m.status with extra := () },
                           score := m.score ++ [m.score.getLast! + 0],
                           time := m.time ++ [m.time.getLast! + 1] } () := by
                simp only [phaseLoop, if_pos hlt, hstrat, stratC3]
                rw [if_neg hnauton]
                dsimp only
                rw [harith]
                rw [if_pos hlt2]
          _ = some (150, mf, ()) := hrec
        · rw [hl1]
          simp only [List.length_append, List.length_cons, List.length_nil]
          omega
        · rw [hl2]
          simp only [List.length_append, List.length_cons, List.length_nil]
          omega
        · rw [hlast]
          show (m.score ++ [m.score.getLast! + 0]).getLast! = m.score.getLast!
          rw [concat_getLast!, add_zero]

/-- C1: in each phase loop of `run_game` (AUTON with boundary `autontime`,
TELEOP with boundary `gametime`), one iteration appends the
(time, cumulative score) sample to the series exactly when the
post-advance time `tnow + dtime` is strictly below the boundary `B`, and
the loop always continues from the advanced time; in particular, when the
action's `dtime` lands exactly on the boundary, the loop ends with the
series unchanged (the sample is dropped) while the returned internal time
is the advanced boundary value. -/
theorem run_game_boundary_sample_policy (B : K) (fuel : Nat) (tnow : K)
    (m : FrcMatch K ρ ε) (r : ρ) (h : tnow < B) :
    (phaseLoop B (fuel + 1) tnow m r =
      phaseLoop B fuel (tnow + (m.strat m.status r m.status r).1)
        { m with
          status := { m.status with extra := (m.strat m.status r m.status r).2.2.1 },
          score := m.score ++
            (if tnow + (m.strat m.status r m.status r).1 < B then
              [m.score.getLast! + (m.strat m.status r m.status r).2.1] else []),
          time := m.time ++
            (if tnow + (m.strat m.status r m.status r).1 < B then
              [m.time.getLast! + (m.strat m.status r m.status r).1] else []) }
        (m.strat m.status r m.status r).2.2.2) ∧
    (tnow + (m.strat m.status r m.status r).1 = B →
      phaseLoop B (fuel + 1) tnow m r =
        some (tnow + (m.strat m.status r m.status r).1,
          { m with status := { m.status with extra := (m.strat m.status r m.status r).2.2.1 } },
          (m.strat m.status r m.status r).2.2.2)) := by
  constructor
  · simp only [phaseLoop, if_pos h]
    split
    · rfl
    · simp
  · intro hB
    simp only [phaseLoop, if_pos h]
    rw [if_neg (by rw [hB]; exact lt_irrefl B)]
    rw [hB]
    exact phaseLoop_exit B fuel B _ _ (lt_irrefl B)

theorem run_game_boundary_sample_policy_witness :
    phaseLoop 15 (1 + 1) 0 mX () =
      some ((15 : Int), { mX with status := { mX.status with extra := () } }, ()) :=
  (run_game_boundary_sample_policy 15 1 0 mX () (by decide)).2 (by decide)

/-- C4 (amended): for every completed `run_game` starting from series of
equal length (as at construction), the final times and scores series have
equal length, with no assumption on the signs of the action results; and
whenever every action result of the strategy additionally has `dtime ≥ 0`
and `dpoints ≥ 0` (and the starting series are non-decreasing), the final
times and scores series are non-decreasing.  (Without the non-negativity
hypothesis the monotonicity part is false, see the counterexample.) -/
theorem run_game_monotone (fuel : Nat) (m : FrcMatch K ρ ε) (r : ρ)
    (mf : FrcMatch K ρ ε) (rf : ρ)
    (h : run_game fuel m r = some (mf, rf))
    (hlen : m.time.length = m.score.length) :
    mf.time.length = mf.score.length ∧
    ((∀ (s : Status K ε) (rb : ρ),
        0 ≤ (m.strat s rb s rb).1 ∧ 0 ≤ (m.strat s rb s rb).2.1) →
      List.Chain' (· ≤ ·) m.time → List.Chain' (· ≤ ·) m.score →
      List.Chain' (· ≤ ·) mf.time ∧ List.Chain' (· ≤ ·) mf.score) := by
  simp only [run_game] at h
  split at h
  · exact absurd h (by simp)
  · rename_i t1 m1 r1 heq1
    have frame1 := phaseLoop_frame _ _ _ _ _ _ _ _ heq1
    have len1 := phaseLoop_len _ _ _ _ _ _ _ _ heq1 hlen
    have hst1 : m1.strat = m.strat := by rw [frame1]
    split at h
    · exact absurd h (by simp)
    · rename_i t2 m2 r2 heq2
      have len2 := phaseLoop_len _ _ _ _ _ _ _ _ heq2 len1
      simp only [Option.some.injEq, Prod.mk.injEq] at h
      obtain ⟨h2, -⟩ := h
      subst h2
      constructor
      · simp [len2]
      · intro hstrat ht hs
        have mono1 := phaseLoop_mono _ _ _ _ _ _ _ _ heq1 hstrat ht hs hlen
        have mono2 := phaseLoop_mono _ _ _ _ _ _ _ _ heq2
          (by rw [hst1]; exact hstrat) mono1.1 mono1.2.1 mono1.2.2
        constructor
        · have := chain'_le_concat m2.time 0 le_rfl mono2.1
          rw [add_zero] at this
          exact this
        · have := chain'_le_concat m2.score 0 le_rfl mono2.2.1
          rw [add_zero] at this
          exact this

theorem run_game_monotone_witness :
    mRdone.time.length = mRdone.score.length ∧
    (List.Chain' (· ≤ ·) mRdone.time ∧ List.Chain' (· ≤ ·) mRdone.score) := by
  refine ⟨?_, ?_⟩
  · exact (run_game_monotone 10 mR () mRdone ()
      (rfl : run_game 10 mR () = some (mRdone, ())) rfl).1
  · exact (run_game_monotone 10 mR () mRdone ()
      (rfl : run_game 10 mR () = some (mRdone, ())) rfl).2
      (fun s rb => ⟨by show (0 : Int) ≤ 2; decide, by show (0 : Int) ≤ 1; decide⟩)
      (List.chain'_singleton 0) (List.chain'_singleton 0)

/-- C4 counterexample: a completed `run_game` whose actions may return
negative `dtime` / `dpoints` produces times and scores series that are NOT
non-decreasing (their lengths still agree), so the claim as stated — for
every strategy and every sequence of action results — is false. -/
theorem run_game_monotone_cex :
    (run_game 30 mAlt false).map (fun p => (p.1.time, p.1.score)) =
      some ([0, -1, 2, 1, 0, 3, 2, 2], [0, -1, -1, -2, -3, -3, -4, -4]) ∧
    ¬ List.Chain' (· ≤ ·) [(0 : Int), -1, 2, 1, 0, 3, 2, 2] ∧
    ¬ List.Chain' (· ≤ ·) [(0 : Int), -1, -1, -2, -3, -3, -4, -4] ∧
    (run_game 30 mAlt false).map (fun p => decide (p.1.time.length = p.1.score.length)) =
      some true := by
  refine ⟨by decide, ?_, ?_, by decide⟩
  · simp [List.chain'_cons]
  · simp [List.chain'_cons]

/-- C5: for every completed `run_game`, `points_auton + points_tele`
equals the last entry of the scores series, and `points_end` is left at
its pre-run value (0 for a freshly constructed match). -/
theorem run_game_points_sum (fuel : Nat) (m : FrcMatch K ρ ε) (r : ρ)
    (mf : FrcMatch K ρ ε) (rf : ρ) (h : run_game fuel m r = some (mf, rf)) :
    mf.points_auton + mf.points_tele = mf.score.getLast! ∧
      mf.points_end = m.points_end := by
  simp only [run_game] at h
  split at h
  · exact absurd h (by simp)
  · rename_i t1 m1 r1 heq1
    have frame1 := phaseLoop_frame _ _ _ _ _ _ _ _ heq1
    split at h
    · exact absurd h (by simp)
    · rename_i t2 m2 r2 heq2
      have frame2 := phaseLoop_frame _ _ _ _ _ _ _ _ heq2
      have hpa : m2.points_auton = m1.score.getLast! := by rw [frame2]
      have hpe : m2.points_end = m1.points_end := by rw [frame2]
      have hpe1 : m1.points_end = m.points_end := by rw [frame1]
      simp only [Option.some.injEq, Prod.mk.injEq] at h
      obtain ⟨h2, -⟩ := h
      subst h2
      constructor
      · show m2.points_auton + (m2.score.getLast! - m2.points_auton) =
          (m2.score ++ [m2.score.getLast!]).getLast!
        rw [concat_getLast!]
        ring
      · show m2.points_end = m.points_end
        rw [hpe, hpe1]

theorem run_game_points_sum_witness :
    mRdone.points_auton + mRdone.points_tele = mRdone.score.getLast! ∧
      mRdone.points_end = mR.points_end :=
  run_game_points_sum 10 mR () mRdone () rfl

/-- C8: `run_game` never writes the `time` entry of the status dictionary:
a completed run leaves `status.time` at its pre-run value, and
construction sets it to 0 — only the local variable `tnow` tracks
simulated time. -/
theorem status_time_never_written [Inhabited ε] (fuel : Nat) (m : FrcMatch K ρ ε)
    (r : ρ) (sf : FrcStrat K ρ ε) (g a e : K) (gf : Status K ε → ε) :
    (∀ (mf : FrcMatch K ρ ε) (rf : ρ), run_game fuel m r = some (mf, rf) →
      mf.status.time = m.status.time) ∧
    (FrcMatch.init sf g a e gf : FrcMatch K ρ ε).status.time = 0 := by
  constructor
  · intro mf rf h
    simp only [run_game] at h
    split at h
    · exact absurd h (by simp)
    · rename_i t1 m1 r1 heq1
      have frame1 := phaseLoop_frame _ _ _ _ _ _ _ _ heq1
      split at h
      · exact absurd h (by simp)
      · rename_i t2 m2 r2 heq2
        have frame2 := phaseLoop_frame _ _ _ _ _ _ _ _ heq2
        have h1 : m2.status.time = m1.status.time := by rw [frame2]
        have h2 : m1.status.time = m.status.time := by rw [frame1]
        simp only [Option.some.injEq, Prod.mk.injEq] at h
        obtain ⟨h3, -⟩ := h
        subst h3
        show m2.status.time = m.status.time
        rw [h1, h2]
  · rfl

theorem status_time_never_written_witness :
    (mRdone.status.time = mR.status.time) ∧
    (FrcMatch.init stratR 9 3 8 (fun st => st.extra) : FrcMatch Int Unit Unit).status.time = 0 :=
  ⟨(status_time_never_written 10 mR () stratR 9 3 8 (fun st => st.extra)).1 mRdone () rfl,
   (status_time_never_written 10 mR () stratR 9 3 8 (fun st => st.extra)).2⟩

/-- C10: the `endgame` status flag and `points_end` stay at their initial
`false` / `0` values through construction, `reset_field`, and every
completed `run_game`: the ENDGAME phase is never entered or signalled. -/
theorem endgame_never_signalled [Inhabited ε] (fuel : Nat) (m : FrcMatch K ρ ε)
    (r : ρ) (sf : FrcStrat K ρ ε) (g a e : K) (gf : Status K ε → ε) :
    (FrcMatch.init sf g a e gf : FrcMatch K ρ ε).status.endgame = false ∧
    (FrcMatch.init sf g a e gf : FrcMatch K ρ ε).points_end = 0 ∧
    (FrcMatch.reset_field m).status.endgame = false ∧
    (FrcMatch.reset_field m).points_end = 0 ∧
    (∀ (mf : FrcMatch K ρ ε) (rf : ρ), run_game fuel m r = some (mf, rf) →
      mf.status.endgame = m.status.endgame ∧ mf.points_end = m.points_end) := by
  refine ⟨rfl, rfl, rfl, rfl, ?_⟩
  intro mf rf h
  simp only [run_game] at h
  split at h
  · exact absurd h (by simp)
  · rename_i t1 m1 r1 heq1
    have frame1 := phaseLoop_frame _ _ _ _ _ _ _ _ heq1
    split at h
    · exact absurd h (by simp)
    · rename_i t2 m2 r2 heq2
      have frame2 := phaseLoop_frame _ _ _ _ _ _ _ _ heq2
      have h1 : m2.status.endgame = m1.status.endgame := by rw [frame2]
      have h2 : m1.status.endgame = m.status.endgame := by rw [frame1]
      have h3 : m2.points_end = m1.points_end := by rw [frame2]
      have h4 : m1.points_end = m.points_end := by rw [frame1]
      simp only [Option.some.injEq, Prod.mk.injEq] at h
      obtain ⟨h5, -⟩ := h
      subst h5
      constructor
      · show m2.status.endgame = m.status.endgame
        rw [h1, h2]
      · show m2.points_end = m.points_end
        rw [h3, h4]

theorem endgame_never_signalled_witness :
    ((FrcMatch.init stratR 9 3 8 (fun st => st.extra) : FrcMatch Int Unit Unit).status.endgame = false) ∧
    ((FrcMatch.init stratR 9 3 8 (fun st => st.extra) : FrcMatch Int Unit Unit).points_end = 0) ∧
    (mR.reset_field.status.endgame = false) ∧
    (mR.reset_field.points_end = 0) ∧
    (mRdone.status.endgame = mR.status.endgame ∧ mRdone.points_end = mR.points_end) :=
  ⟨(endgame_never_signalled 10 mR () stratR 9 3 8 (fun st => st.extra)).1,
   (endgame_never_signalled 10 mR () stratR 9 3 8 (fun st => st.extra)).2.1,
   (endgame_never_signalled 10 mR () stratR 9 3 8 (fun st => st.extra)).2.2.1,
   (endgame_never_signalled 10 mR () stratR 9 3 8 (fun st => st.extra)).2.2.2.1,
   (endgame_never_signalled 10 mR () stratR 9 3 8 (fun st => st.extra)).2.2.2.2 mRdone () rfl⟩

/-- C6: `viz_game` fails with the invalid-state error exactly when
`status.gameover` is false; once the flag is true it returns the data it
plots instead of raising. -/
theorem viz_game_requires_gameover (m : FrcMatch K ρ ε) :
    (viz_game m = Except.error SimError.invalidState ↔ m.status.gameover = false) ∧
    (m.status.gameover = true →
      viz_game m =
        Except.ok (m.time, m.score, m.points_auton, m.points_tele, m.points_end)) := by
  cases hb : m.status.gameover <;> simp [viz_game, hb]

theorem viz_game_requires_gameover_witness :
    viz_game mR = Except.error SimError.invalidState ∧
    viz_game mRdone =
      Except.ok (mRdone.time, mRdone.score, mRdone.points_auton,
        mRdone.points_tele, mRdone.points_end) :=
  ⟨(viz_game_requires_gameover mR).1.mpr rfl,
   (viz_game_requires_gameover mRdone).2 rfl⟩

/-- C7: `roll_for_success rate` with a uniform draw `u ∈ [0,1)` returns
true iff `u < rate`; rate 0 always returns false, rate 1 always returns
true, and out-of-range rates saturate without failing. -/
theorem roll_for_success_spec (rate u : K) (h0 : 0 ≤ u) (h1 : u < 1) :
    (roll_for_success rate u = true ↔ u < rate) ∧
    roll_for_success 0 u = false ∧
    roll_for_success 1 u = true ∧
    (rate < 0 → roll_for_success rate u = false) ∧
    (1 < rate → roll_for_success rate u = true) := by
  simp only [roll_for_success, gt_iff_lt, decide_eq_true_eq, decide_eq_false_iff_not]
  refine ⟨trivial, ?_, ?_, ?_, ?_⟩
  · exact not_lt.mpr h0
  · exact h1
  · intro hr
    exact not_lt.mpr (le_of_lt (lt_of_lt_of_le hr h0))
  · intro hr
    exact lt_trans h1 hr

theorem roll_for_success_spec_witness :
    ((roll_for_success (1/2 : ℚ) (1/4) = true ↔ (1/4 : ℚ) < 1/2) ∧
      roll_for_success (0 : ℚ) (1/4) = false ∧
      roll_for_success (1 : ℚ) (1/4) = true ∧
      ((1/2 : ℚ) < 0 → roll_for_success (1/2 : ℚ) (1/4) = false) ∧
      (1 < (1/2 : ℚ) → roll_for_success (1/2 : ℚ) (1/4) = true)) :=
  roll_for_success_spec (1/2 : ℚ) (1/4) (by norm_num) (by norm_num)

/-- C2: evaluation at the failing input.  With the deterministic strategy
`stratR` (constant `(dtime 2, dpoints 1)`), running `mR`, calling
`reset_field`, and running again reproduces the scores series, but the
times series of the second run continues on top of the first run's series
instead of repeating it: `reset_field` assigns `self.game = [0]` where
`__init__` assigns `self.time = [0]`, so the `time` list is never
re-initialized.  This refutes the claimed idempotence; the claim matches
the documented intent of `reset_field`, so the code is at fault. -/
theorem reset_field_rerun_divergence :
    ((run_game 10 mR ()).bind fun p =>
      (run_game 10 p.1.reset_field ()).map fun q =>
        (decide (q.1.time = p.1.time), decide (q.1.score = p.1.score),
          p.1.time, q.1.time)) =
      some (false, true, [0, 2, 4, 6, 6], [0, 2, 4, 6, 6, 8, 10, 12, 12]) := by
  decide

/-- C9: across any phase loop of `run_game`, the successive differences of
the recorded times series are exactly the `dtime`s returned by the
recorded (non-dropped) actions, while the internal clock returned by the
loop advances by the sum of ALL `dtime`s, dropped ones included; the
first conjunct ties the instrumented loop to `phaseLoop` itself.
Concretely (last conjunct), a teleop loop of `mR` ends with internal
clock 9 but last recorded time 4, strictly below both the clock and
`gametime`. -/
theorem times_diffs_match_recorded_actions (B : K) (fuel : Nat) (tnow : K)
    (m : FrcMatch K ρ ε) (r : ρ) (tf : K) (mf : FrcMatch K ρ ε) (rf : ρ)
    (recd : List (K × K)) (alldts : List K)
    (h : phaseLoopT B fuel tnow m r = some (tf, mf, rf, recd, alldts))
    (hne : m.time ≠ []) :
    phaseLoop B fuel tnow m r = some (tf, mf, rf) ∧
    diffs mf.time = diffs m.time ++ recd.map Prod.fst ∧
    tf = tnow + alldts.sum ∧
    (phaseLoopT (9 : Int) 10 3 mR ()).map
      (fun x => (x.1, x.2.1.time.getLast!,
        decide (x.2.1.time.getLast! < x.1),
        decide (x.2.1.time.getLast! < mR.gametime))) = some (9, 4, true, true) := by
  have spec := phaseLoopT_spec B fuel tnow m r tf mf rf recd alldts h hne
  refine ⟨?_, spec.1, spec.2.1, by decide⟩
  rw [phaseLoopT_sound, h]
  rfl

theorem times_diffs_match_recorded_actions_witness :
    (phaseLoop (9 : Int) 10 3 mR () = some (9, mRT, ())) ∧
    diffs mRT.time = diffs mR.time ++ ([((2 : Int), (1 : Int)), (2, 1)].map Prod.fst) ∧
    (9 : Int) = 3 + [(2 : Int), 2, 2].sum ∧
    (phaseLoopT (9 : Int) 10 3 mR ()).map
      (fun x => (x.1, x.2.1.time.getLast!,
        decide (x.2.1.time.getLast! < x.1),
        decide (x.2.1.time.getLast! < mR.gametime))) = some (9, 4, true, true) :=
  times_diffs_match_recorded_actions 9 10 3 mR () 9 mRT ()
    [(2, 1), (2, 1)] [2, 2, 2] rfl (by decide)

/-- C3: end-to-end scenario with auton duration 15 and total duration 150:
with `(dtime 10, dpoints 6)` during AUTON and `(dtime 1, dpoints 0)`
during TELEOP, the completed run has `points_tele = 0` and 137 samples in
each series, and the AUTON phase alone accounts for the first 2 of them —
so exactly 135 samples are recorded during the teleop period: 134 from
in-loop actions (the 135th action lands exactly on the boundary and is
dropped by the truncation policy) plus the duplicated match-end sample. -/
theorem scenario2_teleop_samples :
    (run_game 200 mC3 ()).map
      (fun p => (p.1.points_tele, p.1.time.length, p.1.score.length)) =
      some (0, 137, 137) ∧
    (phaseLoop (15 : Int) 200 0 mC3 ()).map (fun x => x.2.1.time.length) = some 2 := by
  refine ⟨?_, by decide⟩
  have hA : phaseLoop mC3.autontime 200 0 mC3 () = some (20, mC3A, ()) := rfl
  obtain ⟨mf, hrec, hl1, hl2, hlast⟩ :=
    stratC3_teleop 135 200 (by norm_num) mC3mid rfl rfl (by decide) (by decide)
  have h15 : ((150 : Int) - ((135 : Nat) : Int)) = 15 := by norm_num
  rw [h15] at hrec
  have hfin := run_game_eq 200 mC3 () 20 mC3A () 150 mf () hA hrec
  rw [hfin]
  have frame := phaseLoop_frame _ _ _ _ _ _ _ _ hrec
  have hpa : mf.points_auton = (6 : Int) := by rw [frame]; rfl
  have hlast6 : mf.score.getLast! = (6 : Int) := hlast
  have hlt : mf.time.length = 136 := by
    rw [hl1]
    rfl
  have hls : mf.score.length = 136 := by
    rw [hl2]
    rfl
  simp only [Option.map_some']
  rw [hlast6, hpa, List.length_append, List.length_append, hlt, hls]
  norm_num
